import Mathlib

/-
Verification of the osm-viewer elevation/slope pipeline.

Shallow embedding conventions:
* JS numbers are modelled by ℚ with exact arithmetic; `Math.floor` is `Int.floor`.
* turf.js geodesic primitives (per-segment distance and along-segment
  interpolation) are abstracted as a `Geom` structure carrying exactly the
  algebraic facts turf's implementation provides in exact arithmetic
  (nonnegative distances, interpolation hitting both endpoints exactly —
  turf.along special-cases exact vertex hits to return the stored coordinate).
  `flatGeom` is a concrete computable instance used to evaluate the
  algorithms on explicit inputs.
* Asynchronous elevation lookup (`Promise.all` recombined by index) is
  modelled by a pure elevation oracle `Point → Option ℚ`; `none` is a missing
  elevation value (`null`).
* A JS value that is non-finite (Infinity / NaN, produced by dividing by a
  zero distance) is modelled by `none` in an `Option ℚ` result.
* Thrown exceptions / rejected promises are modelled by `Except Unit`.
-/

/-- A geographic point, a pair of rational coordinates. -/
abbrev Point : Type := ℚ × ℚ

/-- Abstraction of turf.js geodesic primitives: segment distance and
interpolation along a segment, with the exactness facts turf's `along`
provides at vertices. -/
structure Geom where
  dist : Point → Point → ℚ
  interp : Point → Point → ℚ → Point
  dist_nonneg : ∀ p q, 0 ≤ dist p q
  interp_zero : ∀ p q, interp p q 0 = p
  interp_dist : ∀ p q, interp p q (dist p q) = q

/-- A concrete computable geometry: taxicab distance with linear
interpolation, used to run the embedded algorithms on explicit inputs. -/
def flatGeom : Geom where
  dist p q := |q.1 - p.1| + |q.2 - p.2|
  interp p q d :=
    let D := |q.1 - p.1| + |q.2 - p.2|
    if D = 0 then p
    else (p.1 + d / D * (q.1 - p.1), p.2 + d / D * (q.2 - p.2))
  dist_nonneg p q := by positivity
  interp_zero p q := by
    by_cases h : |q.1 - p.1| + |q.2 - p.2| = 0 <;> simp [h]
  interp_dist p q := by
    by_cases h : |q.1 - p.1| + |q.2 - p.2| = 0
    · have h1 : |q.1 - p.1| = 0 := by
        have := abs_nonneg (q.1 - p.1)
        have := abs_nonneg (q.2 - p.2)
        linarith
      have h2 : |q.2 - p.2| = 0 := by
        have := abs_nonneg (q.1 - p.1)
        linarith
      have e1 : q.1 = p.1 := by
        have := abs_eq_zero.mp h1; linarith
      have e2 : q.2 = p.2 := by
        have := abs_eq_zero.mp h2; linarith
      simp only [h, if_pos]
      exact Prod.ext_iff.mpr ⟨e1.symm, e2.symm⟩
    · simp only [h, if_false]
      have : (|q.1 - p.1| + |q.2 - p.2|) / (|q.1 - p.1| + |q.2 - p.2|) = 1 :=
        div_self h
      rw [this]
      simp

/-- Total arc length of a polyline: the sum of consecutive segment
distances (turf.length of the lineString). -/
def pathLength (g : Geom) : List Point → ℚ
  | p :: q :: rest => g.dist p q + pathLength g (q :: rest)
  | _ => 0

theorem pathLength_nonneg (g : Geom) : ∀ l : List Point, 0 ≤ pathLength g l
  | [] => le_refl 0
  | [_] => le_refl 0
  | p :: q :: rest => by
    have h1 := g.dist_nonneg p q
    have h2 := pathLength_nonneg g (q :: rest)
    simp only [pathLength]
    linarith

/-- turf.along: walk the polyline accumulating segment lengths; once the
requested distance falls inside (or exactly at the end of) the current
segment, interpolate there; past the total length, return the final vertex.
turf returns stored coordinates exactly at vertex hits, which is what the
`interp_zero` / `interp_dist` facts of `Geom` encode. -/
def along (g : Geom) : List Point → ℚ → Point
  | [], _ => ((0 : ℚ), (0 : ℚ))
  | [p], _ => p
  | p :: q :: rest, d =>
    if d ≤ g.dist p q then g.interp p q d
    else along g (q :: rest) (d - g.dist p q)

/-- BicycleMap.tsx `generateSamplingPoints`: samples turf.along at
distances 0, interval, 2·interval, … while the distance stays ≤ the total
length (the JS `for (let dist = 0; dist <= totalLength; dist += interval)`
loop, in exact arithmetic). No terminal point is appended afterwards.
For a nonpositive interval the JS loop would not terminate; the embedding
returns `[]` there and all theorems assume `0 < interval`. -/
def generateSamplingPoints (g : Geom) (path : List Point) (interval : ℚ) :
    List Point :=
  if 0 < interval then
    (List.range (⌊pathLength g path / interval⌋.toNat + 1)).map
      (fun k : ℕ => along g path ((k : ℚ) * interval))
  else []

theorem along_zero (g : Geom) (p q : Point) (rest : List Point) :
    along g (p :: q :: rest) 0 = p := by
  simp only [along]
  rw [if_pos (g.dist_nonneg p q)]
  exact g.interp_zero p q

/-- On a path all of whose segments have positive length, `along` at the
total length returns the final vertex. -/
theorem along_total (g : Geom) :
    ∀ (path : List Point), path ≠ [] →
      List.Chain' (fun a b => 0 < g.dist a b) path →
      some (along g path (pathLength g path)) = path.getLast?
  | [], h, _ => absurd rfl h
  | [p], _, _ => by simp [along, pathLength]
  | [p, q], _, _ => by
    have h1 : pathLength g [p, q] = g.dist p q := by simp [pathLength]
    have h2 : along g [p, q] (pathLength g [p, q]) =
        if pathLength g [p, q] ≤ g.dist p q then
          g.interp p q (pathLength g [p, q])
        else along g [q] (pathLength g [p, q] - g.dist p q) := rfl
    rw [h2, h1, if_pos (le_refl _), g.interp_dist p q]
    simp
  | p :: q :: r :: rs, _, hchain => by
    have hchain' : List.Chain' (fun a b => 0 < g.dist a b) (q :: r :: rs) :=
      (List.chain'_cons.mp hchain).2
    have hqr : 0 < g.dist q r := (List.chain'_cons.mp hchain').1
    have hA : pathLength g (q :: r :: rs) = g.dist q r + pathLength g (r :: rs) := rfl
    have hrest : 0 < pathLength g (q :: r :: rs) := by
      have h0 := pathLength_nonneg g (r :: rs)
      rw [hA]; linarith
    have hB : pathLength g (p :: q :: r :: rs) =
        g.dist p q + pathLength g (q :: r :: rs) := rfl
    have hC : along g (p :: q :: r :: rs) (pathLength g (p :: q :: r :: rs)) =
        if pathLength g (p :: q :: r :: rs) ≤ g.dist p q then
          g.interp p q (pathLength g (p :: q :: r :: rs))
        else along g (q :: r :: rs)
          (pathLength g (p :: q :: r :: rs) - g.dist p q) := rfl
    rw [hC, if_neg (by rw [hB]; linarith)]
    have hD : pathLength g (p :: q :: r :: rs) - g.dist p q =
        pathLength g (q :: r :: rs) := by rw [hB]; ring
    rw [hD]
    have hIH := along_total g (q :: r :: rs) (by simp) hchain'
    rw [hIH]
    simp

/-- C1 counterexample: resampling the 250 m two-point path at a 100 m
interval produces samples at 0, 100 and 200 m; the final sample is not the
path's terminal point and no terminal point is appended. -/
theorem generateSamplingPoints_no_snap :
    generateSamplingPoints flatGeom [(0, 0), (250, 0)] 100 =
      [((0 : ℚ), (0 : ℚ)), (100, 0), (200, 0)] ∧
    (generateSamplingPoints flatGeom [(0, 0), (250, 0)] 100).getLast? ≠
      some (((250 : ℚ), (0 : ℚ))) := by
  have hL : pathLength flatGeom [(0, 0), (250, 0)] = 250 := by
    norm_num [pathLength, flatGeom]
  have h : generateSamplingPoints flatGeom [(0, 0), (250, 0)] 100 =
      [((0 : ℚ), (0 : ℚ)), (100, 0), (200, 0)] := by
    rw [generateSamplingPoints, if_pos (by norm_num : (0 : ℚ) < 100), hL]
    rw [show (⌊(250 : ℚ) / 100⌋.toNat + 1) = 3 by
      rw [show ⌊(250 : ℚ) / 100⌋ = 2 by norm_num]; rfl]
    rw [show List.range 3 = [0, 1, 2] from rfl]
    simp only [List.map]
    norm_num [along, flatGeom]
  refine ⟨h, ?_⟩
  rw [h]
  norm_num

/-- C1 (amended): the first sample always equals the path's first point
exactly; the final sample equals the path's terminal point when the
sampling interval divides the total length exactly (and all segments have
positive length) — otherwise the last sample stops short of the terminal
point and nothing is appended. -/
theorem generateSamplingPoints_endpoints (g : Geom) (p q : Point)
    (rest : List Point) (interval : ℚ) (hI : 0 < interval) :
    (generateSamplingPoints g (p :: q :: rest) interval).head? = some p ∧
    ((⌊pathLength g (p :: q :: rest) / interval⌋ : ℚ) * interval =
        pathLength g (p :: q :: rest) →
      List.Chain' (fun a b => 0 < g.dist a b) (p :: q :: rest) →
      (generateSamplingPoints g (p :: q :: rest) interval).getLast? =
        (p :: q :: rest).getLast?) := by
  constructor
  · rw [generateSamplingPoints, if_pos hI]
    rw [List.range_succ_eq_map, List.map_cons, List.head?_cons]
    norm_num [along_zero]
  · intro hdvd hchain
    rw [generateSamplingPoints, if_pos hI]
    have hL0 : 0 ≤ pathLength g (p :: q :: rest) := pathLength_nonneg g _
    have hfl0 : 0 ≤ ⌊pathLength g (p :: q :: rest) / interval⌋ :=
      Int.floor_nonneg.mpr (div_nonneg hL0 (le_of_lt hI))
    have hcast :
        ((⌊pathLength g (p :: q :: rest) / interval⌋.toNat : ℚ)) * interval =
          pathLength g (p :: q :: rest) := by
      rw [show ((⌊pathLength g (p :: q :: rest) / interval⌋.toNat : ℚ)) =
          ((⌊pathLength g (p :: q :: rest) / interval⌋ : ℚ)) by
        exact_mod_cast congrArg (fun z : ℤ => (z : ℚ))
          (Int.toNat_of_nonneg hfl0)]
      exact hdvd
    rw [List.range_succ, List.map_append, List.map_cons, List.map_nil,
      List.getLast?_concat, hcast]
    exact along_total g (p :: q :: rest) (by simp) hchain

/-- C1 witness: on the 200 m two-point path with a 100 m interval the
amended theorem's hypotheses hold and both endpoints are hit exactly. -/
theorem generateSamplingPoints_endpoints_witness :
    (generateSamplingPoints flatGeom [(0, 0), (200, 0)] 100).head? =
      some ((0 : ℚ), (0 : ℚ)) ∧
    (generateSamplingPoints flatGeom [(0, 0), (200, 0)] 100).getLast? =
      ([((0 : ℚ), (0 : ℚ)), (200, 0)]).getLast? := by
  have h := generateSamplingPoints_endpoints flatGeom (0, 0) (200, 0) []
    100 (by norm_num)
  exact ⟨h.1, h.2 (by norm_num [pathLength, flatGeom])
    (by norm_num [List.chain'_cons, flatGeom])⟩

/-- BicycleMap.tsx `calculateSlopes`: per consecutive sample pair, if both
elevations are present, slope percent is the elevation delta over the
pair's distance (guarded: a nonpositive distance yields 0); a missing
elevation yields the default slope 0. The `Promise.all` elevation fetch is
modelled by the pure oracle `elev` applied pointwise. No smoothing occurs. -/
def calculateSlopes (g : Geom) (elev : Point → Option ℚ) :
    List Point → List ℚ
  | p :: q :: rest =>
    (match elev p, elev q with
      | some e1, some e2 =>
        if 0 < g.dist p q then (e2 - e1) / g.dist p q * 100 else 0
      | _, _ => 0) :: calculateSlopes g elev (q :: rest)
  | _ => []

/-- Map.tsx `calculatePathSlopes`: same computation but with NO guard on a
zero distance; dividing by a zero distance produces a non-finite JS number
(Infinity or NaN), modelled here by `none`. -/
def calculatePathSlopes (g : Geom) (elev : Point → Option ℚ) :
    List Point → List (Option ℚ)
  | p :: q :: rest =>
    (match elev p, elev q with
      | some e1, some e2 =>
        if g.dist p q = 0 then none
        else some ((e2 - e1) / g.dist p q * 100)
      | _, _ => some 0) :: calculatePathSlopes g elev (q :: rest)
  | _ => []

/-- Modelled from the spec (§4.5), as the comparison target for the
smoothing claim: each point's used elevation is the unweighted average of
itself and its immediate neighbors, an edge point substituting its own
value for the missing neighbor; absent raw elevations default to 0. -/
def specSmoothElevations (es : List ℚ) : List ℚ :=
  (List.range es.length).map (fun i =>
    (es.getD (i - 1) 0 + es.getD i 0 + es.getD (i + 1) (es.getD i 0)) / 3)

/-- Modelled from the spec (§4.5): per-pair slopes over a given (smoothed)
elevation sequence, zero-distance pairs yielding 0. -/
def specSlopesFrom (g : Geom) : List Point → List ℚ → List ℚ
  | p :: q :: ps, e1 :: e2 :: es =>
    (if 0 < g.dist p q then (e2 - e1) / g.dist p q * 100 else 0) ::
      specSlopesFrom g (q :: ps) (e2 :: es)
  | _, _ => []

/-- Modelled from the spec (§4.5): the slope computation the spec
describes, operating on the smoothed elevation sequence. -/
def specSmoothedSlopes (g : Geom) (elev : Point → Option ℚ)
    (pts : List Point) : List ℚ :=
  specSlopesFrom g pts
    (specSmoothElevations (pts.map (fun p => (elev p).getD 0)))

/-- An elevation oracle with a single spike at (100, 0), used to separate
the raw and smoothed slope computations. -/
def elevSpike : Point → Option ℚ :=
  fun p => if p = ((100 : ℚ), (0 : ℚ)) then some 30 else some 0

/-- C3 counterexample: on three collinear points 100 m apart with
elevations 0, 30, 0, the code computes slopes [30, -30] from the raw
elevations, while the spec's smoothed computation yields [0, 0]: the code
applies no smoothing. -/
theorem calculateSlopes_not_smoothed :
    calculateSlopes flatGeom elevSpike [(0, 0), (100, 0), (200, 0)] =
      [30, -30] ∧
    specSmoothedSlopes flatGeom elevSpike [(0, 0), (100, 0), (200, 0)] =
      [0, 0] ∧
    calculateSlopes flatGeom elevSpike [(0, 0), (100, 0), (200, 0)] ≠
      specSmoothedSlopes flatGeom elevSpike [(0, 0), (100, 0), (200, 0)] := by
  have h1 : calculateSlopes flatGeom elevSpike [(0, 0), (100, 0), (200, 0)] =
      [30, -30] := by
    norm_num [calculateSlopes, elevSpike, flatGeom, Prod.ext_iff]
  have h2 : specSmoothedSlopes flatGeom elevSpike
      [(0, 0), (100, 0), (200, 0)] = [0, 0] := by
    norm_num [specSmoothedSlopes, specSmoothElevations, specSlopesFrom,
      elevSpike, flatGeom, Prod.ext_iff, List.range_succ, List.getD]
  refine ⟨h1, h2, ?_⟩
  rw [h1, h2]
  norm_num

/-- C3 (amended): the slope of each consecutive pair is computed directly
from the raw elevations — when both are present and the distance is
positive, entry i of the output is (e2 - e1) / distance · 100 with e1, e2
the raw oracle values. -/
theorem calculateSlopes_raw (g : Geom) (elev : Point → Option ℚ) :
    ∀ (pts : List Point) (i : ℕ) (p q : Point) (e1 e2 : ℚ),
      pts.get? i = some p → pts.get? (i + 1) = some q →
      elev p = some e1 → elev q = some e2 → 0 < g.dist p q →
      (calculateSlopes g elev pts).get? i =
        some ((e2 - e1) / g.dist p q * 100)
  | [], i, p, q, e1, e2, hp, hq, _, _, _ => by simp at hp
  | [a], i, p, q, e1, e2, hp, hq, _, _, _ => by
    rcases i with _ | n <;> simp at hp hq
  | a :: b :: rest, 0, p, q, e1, e2, hp, hq, he1, he2, hd => by
    obtain rfl : a = p := by simpa using hp
    obtain rfl : b = q := by simpa using hq
    simp only [calculateSlopes, he1, he2, List.get?]
    rw [if_pos hd]
  | a :: b :: rest, n + 1, p, q, e1, e2, hp, hq, he1, he2, hd => by
    have ih := calculateSlopes_raw g elev (b :: rest) n p q e1 e2
      (by simpa using hp) (by simpa using hq) he1 he2 hd
    simpa [calculateSlopes] using ih

/-- C3 witness: the raw-slope characterization applied at the spike
input's first pair. -/
theorem calculateSlopes_raw_witness :
    (calculateSlopes flatGeom elevSpike
      [(0, 0), (100, 0), (200, 0)]).get? 0 =
      some ((30 - 0) / flatGeom.dist (0, 0) (100, 0) * 100) :=
  calculateSlopes_raw flatGeom elevSpike [(0, 0), (100, 0), (200, 0)] 0
    (0, 0) (100, 0) 0 30 rfl rfl
    (by norm_num [elevSpike, Prod.ext_iff])
    (by norm_num [elevSpike, Prod.ext_iff])
    (by norm_num [flatGeom])

/-- C2 counterexample: Map.tsx's `calculatePathSlopes` has no zero-distance
guard — on a duplicated point with elevations present, the division by the
zero distance produces a non-finite value (modelled `none`), not the slope
0 the claim requires. -/
theorem calculatePathSlopes_zero_div :
    calculatePathSlopes flatGeom (fun _ => some 100) [(0, 0), (0, 0)] =
      [none] ∧
    ([none] : List (Option ℚ)) ≠ [some 0] := by
  constructor
  · norm_num [calculatePathSlopes, flatGeom]
  · simp

/-- C2 (amended): BicycleMap.tsx's `calculateSlopes` guards a zero
distance explicitly and yields slope 0 for that pair; Map.tsx's
`calculatePathSlopes` reaches the division with the zero divisor and
yields a non-finite value instead. -/
theorem slope_zero_distance (g : Geom) (elev : Point → Option ℚ)
    (p q : Point) (rest : List Point) (e1 e2 : ℚ)
    (he1 : elev p = some e1) (he2 : elev q = some e2)
    (hd : g.dist p q = 0) :
    (calculateSlopes g elev (p :: q :: rest)).head? = some 0 ∧
    (calculatePathSlopes g elev (p :: q :: rest)).head? = some none := by
  constructor
  · simp [calculateSlopes, he1, he2, hd]
  · simp [calculatePathSlopes, he1, he2, hd]

/-- C2 witness: the zero-distance behaviors at a concrete duplicated
point. -/
theorem slope_zero_distance_witness :
    (calculateSlopes flatGeom (fun _ => some 100)
      [(0, 0), (0, 0)]).head? = some 0 ∧
    (calculatePathSlopes flatGeom (fun _ => some 100)
      [(0, 0), (0, 0)]).head? = some none :=
  slope_zero_distance flatGeom (fun _ => some 100) (0, 0) (0, 0) [] 100 100
    rfl rfl (by norm_num [flatGeom])

/-- BicycleMap.tsx `getSlopeColor`: clamp the slope to [-10, 10]; the red
channel is the floored fraction of the positive clamped slope, the green
channel the floored fraction of the negative clamped slope, and the blue
channel the unfloored 255 - |clamped/10|·255. Result is (red, green, blue). -/
def getSlopeColor (slope : ℚ) : ℤ × ℤ × ℚ :=
  let clampedSlope := min (max slope (-10)) 10
  (if 0 < clampedSlope then ⌊clampedSlope / 10 * 255⌋ else 0,
   if clampedSlope < 0 then ⌊-clampedSlope / 10 * 255⌋ else 0,
   255 - |clampedSlope / 10| * 255)

/-- C8 counterexample: the hot (red) channel is floored to an integer, so
it is not strictly monotonic below the clamp bound: slopes 1 and 1.01 have
magnitudes strictly between 0 and 10 yet the same red value 25. -/
theorem getSlopeColor_not_strict :
    (0 : ℚ) < 1 ∧ (1 : ℚ) < 101 / 100 ∧ (101 / 100 : ℚ) < 10 ∧
    (getSlopeColor 1).1 = 25 ∧ (getSlopeColor (101 / 100)).1 = 25 := by
  refine ⟨by norm_num, by norm_num, by norm_num, ?_, ?_⟩ <;>
    norm_num [getSlopeColor]

theorem getSlopeColor_clamp_id (s : ℚ) (h1 : -10 ≤ s) (h2 : s ≤ 10) :
    min (max s (-10)) 10 = s := by
  rw [max_eq_left h1, min_eq_left h2]

/-- C8 (amended): below the clamp bound the hot channel (red for uphill,
green for downhill) is monotonically non-decreasing in slope magnitude —
not strictly increasing, because of the floor — while the unfloored cold
(blue) channel strictly decreases; beyond the clamp bound the color is
constant. -/
theorem getSlopeColor_monotone (s1 s2 : ℚ) :
    (0 ≤ s1 → s1 < s2 → s2 ≤ 10 →
      (getSlopeColor s1).1 ≤ (getSlopeColor s2).1 ∧
      (getSlopeColor s2).2.2 < (getSlopeColor s1).2.2) ∧
    (-10 ≤ s1 → s1 < s2 → s2 ≤ 0 →
      (getSlopeColor s2).2.1 ≤ (getSlopeColor s1).2.1 ∧
      (getSlopeColor s1).2.2 < (getSlopeColor s2).2.2) ∧
    (10 ≤ s1 → 10 ≤ s2 → getSlopeColor s1 = getSlopeColor s2) ∧
    (s1 ≤ -10 → s2 ≤ -10 → getSlopeColor s1 = getSlopeColor s2) := by
  refine ⟨?_, ?_, ?_, ?_⟩
  · intro h0 hlt h10
    have hc1 : min (max s1 (-10)) 10 = s1 :=
      getSlopeColor_clamp_id s1 (by linarith) (by linarith)
    have hc2 : min (max s2 (-10)) 10 = s2 :=
      getSlopeColor_clamp_id s2 (by linarith) (by linarith)
    simp only [getSlopeColor, hc1, hc2]
    constructor
    · rcases eq_or_lt_of_le h0 with h | h
      · rw [if_neg (by rw [← h]; exact lt_irrefl 0), if_pos (by linarith)]
        exact Int.floor_nonneg.mpr (by nlinarith)
      · rw [if_pos h, if_pos (by linarith)]
        exact Int.floor_le_floor (by nlinarith)
    · rw [abs_of_nonneg (by linarith : (0:ℚ) ≤ s1 / 10),
        abs_of_nonneg (by linarith : (0:ℚ) ≤ s2 / 10)]
      nlinarith
  · intro h0 hlt h10
    have hc1 : min (max s1 (-10)) 10 = s1 :=
      getSlopeColor_clamp_id s1 (by linarith) (by linarith)
    have hc2 : min (max s2 (-10)) 10 = s2 :=
      getSlopeColor_clamp_id s2 (by linarith) (by linarith)
    simp only [getSlopeColor, hc1, hc2]
    constructor
    · rcases eq_or_lt_of_le h10 with h | h
      · rw [if_neg (by rw [h]; exact lt_irrefl 0), if_pos (by linarith)]
        exact Int.floor_nonneg.mpr (by nlinarith)
      · rw [if_pos h, if_pos (by linarith)]
        exact Int.floor_le_floor (by nlinarith)
    · rw [abs_of_nonpos (by nlinarith : s1 / 10 ≤ 0),
        abs_of_nonpos (by nlinarith : s2 / 10 ≤ 0)]
      nlinarith
  · intro h1 h2
    have hc1 : min (max s1 (-10)) 10 = 10 := by
      rw [max_eq_left (by linarith), min_eq_right h1]
    have hc2 : min (max s2 (-10)) 10 = 10 := by
      rw [max_eq_left (by linarith), min_eq_right h2]
    simp only [getSlopeColor, hc1, hc2]
  · intro h1 h2
    have hc1 : min (max s1 (-10)) 10 = -10 := by
      rw [max_eq_right h1]; norm_num
    have hc2 : min (max s2 (-10)) 10 = -10 := by
      rw [max_eq_right h2]; norm_num
    simp only [getSlopeColor, hc1, hc2]

/-- C8 witness: the amended monotonicity facts at concrete slopes 1 < 2,
-2 < -1, and saturated slopes 11, 12 and -12, -11. -/
theorem getSlopeColor_monotone_witness :
    ((getSlopeColor 1).1 ≤ (getSlopeColor 2).1 ∧
      (getSlopeColor 2).2.2 < (getSlopeColor 1).2.2) ∧
    ((getSlopeColor (-1)).2.1 ≤ (getSlopeColor (-2)).2.1 ∧
      (getSlopeColor (-2)).2.2 < (getSlopeColor (-1)).2.2) ∧
    getSlopeColor 11 = getSlopeColor 12 ∧
    getSlopeColor (-12) = getSlopeColor (-11) :=
  ⟨(getSlopeColor_monotone 1 2).1 (by norm_num) (by norm_num) (by norm_num),
   (getSlopeColor_monotone (-2) (-1)).2.1 (by norm_num) (by norm_num)
     (by norm_num),
   (getSlopeColor_monotone 11 12).2.2.1 (by norm_num) (by norm_num),
   (getSlopeColor_monotone (-12) (-11)).2.2.2 (by norm_num) (by norm_num)⟩

/-- A decoded GeoTIFF elevation tile: raster band 0 (indexed row-major),
dimensions, and projected-meters bounding box (minX, minY, maxX, maxY).
The store delivers decodable payloads, modelled post-decode. -/
structure Tiff where
  raster : ℕ → ℚ
  width : ℕ
  height : ℕ
  bbox : ℚ × ℚ × ℚ × ℚ

/-- Outcome of one fetch of a tile URL: an OK response with a decodable
payload, a non-success HTTP response, or a rejected fetch (network
transport error, which throws at the `await`). -/
inductive FetchOutcome where
  | success (t : Tiff)
  | failure
  | transportError

/-- The `z/x/y` tile key. -/
abbrev TileKey : Type := ℕ × ℤ × ℤ

/-- The `tileCache` Map from tile keys to decoded tiles. -/
abbrev TileCache : Type := TileKey → Option Tiff

/-- Result of `fetchGeoTIFF` (identical in BicycleMap.tsx and Map.tsx):
the returned value (`.error` models a thrown/rejected promise), the cache
after the call, and whether a network fetch was issued. -/
structure FetchResult where
  tiff : Except Unit (Option Tiff)
  cache : TileCache
  fetched : Bool

/-- fetchGeoTIFF (BicycleMap.tsx and, identically, Map.tsx): return the cached tile on a hit; on a miss fetch the
store — an OK response is decoded, inserted into the cache and returned; a
non-success response returns null (absent); a rejected fetch propagates as
an exception since there is no try/catch around the `await fetch`. -/
def fetchGeoTIFF (store : TileKey → FetchOutcome) (cache : TileCache)
    (k : TileKey) : FetchResult :=
  match cache k with
  | some t => ⟨.ok (some t), cache, false⟩
  | none =>
    match store k with
    | .success t => ⟨.ok (some t), fun j => if j = k then some t else cache j, true⟩
    | .failure => ⟨.ok none, cache, true⟩
    | .transportError => ⟨.error (), cache, true⟩

/-- The transcendental JS Math primitives used by the coordinate
transforms, abstracted as unconstrained rational functions (Math.PI is the
rational float value, abstracted likewise). -/
structure MathPrims where
  log : ℚ → ℚ
  tan : ℚ → ℚ
  cos : ℚ → ℚ
  pi : ℚ

/-- BicycleMap.tsx `latLonToMercator`: spherical Web-Mercator forward
projection with Earth radius 6378137 m. -/
def latLonToMercator (mj : MathPrims) (lat lon : ℚ) : ℚ × ℚ :=
  (6378137 * (lon * mj.pi) / 180,
   6378137 * mj.log (mj.tan (mj.pi / 4 + lat * mj.pi / 360)))

/-- Slippy-tile x index (Map.tsx `lon2tile`, inlined in BicycleMap.tsx's
`getElevation`). -/
def lon2tile (lon : ℚ) (zoom : ℕ) : ℤ :=
  ⌊(lon + 180) / 360 * (2 : ℚ) ^ zoom⌋

/-- Slippy-tile y index (Map.tsx `lat2tile`, inlined in BicycleMap.tsx's
`getElevation`). -/
def lat2tile (mj : MathPrims) (lat : ℚ) (zoom : ℕ) : ℤ :=
  ⌊(1 - mj.log (mj.tan (lat * mj.pi / 180) + 1 / mj.cos (lat * mj.pi / 180))
      / mj.pi) / 2 * (2 : ℚ) ^ zoom⌋

/-- The tile key `getElevation` requests: the zoom is the hard-coded
constant 12, never the map viewport zoom. -/
def getElevationKey (mj : MathPrims) (lon lat : ℚ) : TileKey :=
  (12, lon2tile lon 12, lat2tile mj lat 12)

/-- BicycleMap.tsx `getElevation`: derive the zoom-12 tile key, obtain the
tile through `fetchGeoTIFF`, project the point to mercator, compute floored
pixel coordinates from the tile's bounding box, bounds-check, and read the
raster; absent tile or out-of-bounds pixel gives null. A thrown
`fetchGeoTIFF` rejection propagates (`.error`). Returns the value and the
cache after the call. -/
def getElevation (mj : MathPrims) (store : TileKey → FetchOutcome)
    (cache : TileCache) (lon lat : ℚ) : Except Unit (Option ℚ) × TileCache :=
  let r := fetchGeoTIFF store cache (getElevationKey mj lon lat)
  match r.tiff with
  | .error e => (.error e, r.cache)
  | .ok none => (.ok none, r.cache)
  | .ok (some t) =>
    let b := t.bbox
    let m := latLonToMercator mj lat lon
    let pixelX := ⌊(m.1 - b.1) / (b.2.2.1 - b.1) * t.width⌋
    let pixelY := ⌊(b.2.2.2 - m.2) / (b.2.2.2 - b.2.1) * t.height⌋
    if 0 ≤ pixelX ∧ pixelX < t.width ∧ 0 ≤ pixelY ∧ pixelY < t.height then
      (.ok (some (t.raster (pixelY * t.width + pixelX).toNat)), r.cache)
    else
      (.ok none, r.cache)

/-- Concrete Math primitives for evaluating witnesses. -/
def mjZero : MathPrims := ⟨fun _ => 0, fun _ => 0, fun _ => 0, 3⟩

/-- A store whose every fetch is a rejected request. -/
def storeReject : TileKey → FetchOutcome := fun _ => .transportError

/-- The initially empty tile cache. -/
def emptyTileCache : TileCache := fun _ => none

/-- A concrete decoded tile. -/
def tiff0 : Tiff := ⟨fun _ => 7, 1, 1, (0, 0, 1, 1)⟩

/-- A store that always succeeds with `tiff0`. -/
def store0 : TileKey → FetchOutcome := fun _ => .success tiff0

/-- A cache holding `tiff0` under every key. -/
def cacheSome : TileCache := fun _ => some tiff0

/-- C5 counterexample: on a cache miss whose fetch is rejected (transport
error), `getElevation` propagates the exception — it does not return the
absent value. -/
theorem getElevation_transport_throws :
    (getElevation mjZero storeReject emptyTileCache 0 0).1 = .error () ∧
    (getElevation mjZero storeReject emptyTileCache 0 0).1 ≠ .ok none := by
  have h : (getElevation mjZero storeReject emptyTileCache 0 0).1 =
      .error () := rfl
  refine ⟨h, ?_⟩
  rw [h]
  simp

/-- The floored pixel x coordinate `getElevation` computes for a resolved
tile: the body's `pixelX` let-binding, factored out (definitionally equal)
so the bounds check can be stated. -/
def pixelXOf (mj : MathPrims) (lon lat : ℚ) (t : Tiff) : ℤ :=
  ⌊((latLonToMercator mj lat lon).1 - t.bbox.1) /
      (t.bbox.2.2.1 - t.bbox.1) * t.width⌋

/-- The floored pixel y coordinate: the body's `pixelY` let-binding. -/
def pixelYOf (mj : MathPrims) (lon lat : ℚ) (t : Tiff) : ℤ :=
  ⌊(t.bbox.2.2.2 - (latLonToMercator mj lat lon).2) /
      (t.bbox.2.2.2 - t.bbox.2.1) * t.height⌋

/-- C5 (amended): every absent-style failure mode returns the absent value
`.ok none` without throwing: a cache miss answered by a non-success HTTP
response (tile unavailable) returns `.ok none`; a resolved tile — cached
or freshly fetched — whose floored pixel fails the bounds check returns
`.ok none`; and in every situation other than a cache miss with a rejected
fetch, `getElevation` returns normally with `.ok`. Only a transport error
on a miss escapes as an exception (see the counterexample). -/
theorem getElevation_absent (mj : MathPrims)
    (store : TileKey → FetchOutcome) (cache : TileCache) (lon lat : ℚ) :
    (cache (getElevationKey mj lon lat) = none →
      store (getElevationKey mj lon lat) = .failure →
      (getElevation mj store cache lon lat).1 = .ok none) ∧
    (∀ t : Tiff,
      (cache (getElevationKey mj lon lat) = some t ∨
        (cache (getElevationKey mj lon lat) = none ∧
          store (getElevationKey mj lon lat) = .success t)) →
      ¬(0 ≤ pixelXOf mj lon lat t ∧ pixelXOf mj lon lat t < t.width ∧
        0 ≤ pixelYOf mj lon lat t ∧ pixelYOf mj lon lat t < t.height) →
      (getElevation mj store cache lon lat).1 = .ok none) ∧
    ((store (getElevationKey mj lon lat) = .transportError →
        cache (getElevationKey mj lon lat) ≠ none) →
      ∃ v : Option ℚ, (getElevation mj store cache lon lat).1 = .ok v) := by
  refine ⟨?_, ?_, ?_⟩
  · intro hc hs
    simp only [getElevation, fetchGeoTIFF, hc, hs]
  · intro t ht hob
    simp only [pixelXOf, pixelYOf] at hob
    rcases ht with hc | ⟨hc, hs⟩
    · simp only [getElevation, fetchGeoTIFF, hc]
      rw [if_neg hob]
    · simp only [getElevation, fetchGeoTIFF, hc, hs]
      rw [if_neg hob]
  · intro h
    cases hc : cache (getElevationKey mj lon lat) with
    | some t =>
      simp only [getElevation, fetchGeoTIFF, hc]
      split
      · exact ⟨_, rfl⟩
      · exact ⟨none, rfl⟩
    | none =>
      cases hs : store (getElevationKey mj lon lat) with
      | success t =>
        simp only [getElevation, fetchGeoTIFF, hc, hs]
        split
        · exact ⟨_, rfl⟩
        · exact ⟨none, rfl⟩
      | failure =>
        exact ⟨none, by simp only [getElevation, fetchGeoTIFF, hc, hs]⟩
      | transportError => exact absurd hc (h hs)

/-- C5 witness: a missing tile (non-success response on a cache miss)
returns the absent value; the cached 1×1 tile `tiff0` at (0, 0) has pixel
y = 1, failing the bounds check, and returns the absent value; and the
miss lookup returns normally with `.ok`. -/
theorem getElevation_absent_witness :
    (getElevation mjZero (fun _ => .failure) emptyTileCache 0 0).1 =
      .ok none ∧
    (getElevation mjZero (fun _ => .failure) cacheSome 0 0).1 = .ok none ∧
    ∃ v : Option ℚ,
      (getElevation mjZero (fun _ => .failure) emptyTileCache 0 0).1 =
        .ok v :=
  ⟨(getElevation_absent mjZero (fun _ => .failure) emptyTileCache 0 0).1
      rfl rfl,
   (getElevation_absent mjZero (fun _ => .failure) cacheSome 0 0).2.1
      tiff0 (Or.inl rfl)
      (by norm_num [pixelXOf, pixelYOf, latLonToMercator, mjZero, tiff0]),
   (getElevation_absent mjZero (fun _ => .failure) emptyTileCache 0 0).2.2
      (fun hcontra => FetchOutcome.noConfusion hcontra)⟩

/-- C6: a cache hit returns the cached tile immediately, leaves the cache
unchanged and issues no fetch; after a successful miss-fetch the tile is
stored under its key, and the next call for the same key is a hit
returning that tile with no second fetch. -/
theorem fetchGeoTIFF_cache (store : TileKey → FetchOutcome)
    (cache : TileCache) (k : TileKey) (t t' : Tiff) :
    (cache k = some t →
      fetchGeoTIFF store cache k = ⟨.ok (some t), cache, false⟩) ∧
    (cache k = none → store k = .success t' →
      (fetchGeoTIFF store cache k).cache k = some t' ∧
      fetchGeoTIFF store (fetchGeoTIFF store cache k).cache k =
        ⟨.ok (some t'), (fetchGeoTIFF store cache k).cache, false⟩) := by
  constructor
  · intro hc
    simp [fetchGeoTIFF, hc]
  · intro hc hs
    have h1 : (fetchGeoTIFF store cache k).cache k = some t' := by
      simp [fetchGeoTIFF, hc, hs]
    refine ⟨h1, ?_⟩
    generalize hgc : (fetchGeoTIFF store cache k).cache = c2 at h1 ⊢
    simp [fetchGeoTIFF, h1]

/-- C6 witness: the cache behaviors at a concrete key, tile and store. -/
theorem fetchGeoTIFF_cache_witness :
    fetchGeoTIFF store0 cacheSome (12, 0, 0) =
      ⟨.ok (some tiff0), cacheSome, false⟩ ∧
    ((fetchGeoTIFF store0 emptyTileCache (12, 0, 0)).cache (12, 0, 0) =
        some tiff0 ∧
      fetchGeoTIFF store0
          (fetchGeoTIFF store0 emptyTileCache (12, 0, 0)).cache (12, 0, 0) =
        ⟨.ok (some tiff0),
          (fetchGeoTIFF store0 emptyTileCache (12, 0, 0)).cache, false⟩) :=
  ⟨(fetchGeoTIFF_cache store0 cacheSome (12, 0, 0) tiff0 tiff0).1 rfl,
   (fetchGeoTIFF_cache store0 emptyTileCache (12, 0, 0) tiff0 tiff0).2
     rfl rfl⟩

/-- C9: the tile key `getElevation` derives has zoom component 12 for
every coordinate, and the lookup's result depends on the store only
through its zoom-12 tiles: stores agreeing on all zoom-12 tiles give
identical results for every coordinate and cache. -/
theorem getElevation_zoom12 (mj : MathPrims) (lon lat : ℚ) :
    (getElevationKey mj lon lat).1 = 12 ∧
    ∀ (store store' : TileKey → FetchOutcome) (cache : TileCache),
      (∀ x y : ℤ, store (12, x, y) = store' (12, x, y)) →
      getElevation mj store cache lon lat =
        getElevation mj store' cache lon lat := by
  refine ⟨rfl, ?_⟩
  intro store store' cache h
  have hk : store (getElevationKey mj lon lat) =
      store' (getElevationKey mj lon lat) :=
    h (lon2tile lon 12) (lat2tile mj lat 12)
  unfold getElevation fetchGeoTIFF
  rw [hk]

/-- C9 witness: the zoom-12 key fact and store-independence at concrete
inputs. -/
theorem getElevation_zoom12_witness :
    (getElevationKey mjZero 0 0).1 = 12 ∧
    getElevation mjZero store0 emptyTileCache 0 0 =
      getElevation mjZero store0 emptyTileCache 0 0 :=
  ⟨(getElevation_zoom12 mjZero 0 0).1,
   (getElevation_zoom12 mjZero 0 0).2 store0 store0 emptyTileCache
     (fun _ _ => rfl)⟩

/-- The quantization performed by `toFixed(6)` on a coordinate: round to
the nearest multiple of 10⁻⁶ (represented by the scaled integer). -/
def quant (x : ℚ) : ℤ := ⌊x * 1000000 + 1 / 2⌋

/-- Map.tsx `getPointKey`: an endpoint's index key is its pair of
coordinates quantized to 6 decimals. -/
def getPointKey (p : Point) : ℤ × ℤ := (quant p.1, quant p.2)

/-- An endpoint-map entry: the owning segment's index and whether the
registered endpoint is that segment's start. -/
structure Conn where
  segmentIndex : ℕ
  isStart : Bool

/-- The endpoint index, a JS Map from quantized keys to entries. -/
abbrev EndpointMap : Type := ℤ × ℤ → Option Conn

/-- JS `Map.set`: a later insertion for the same key overwrites. -/
def emapSet (m : EndpointMap) (k : ℤ × ℤ) (c : Conn) : EndpointMap :=
  fun j => if j = k then some c else m j

/-- The `(key, entry)` insertions performed by `joinPaths`' registration
forEach, in execution order: for each segment index, its first point then
its last point. (The `(0, 0)` defaults are junk used only for an empty
segment, where the JS code would throw; theorems assume segments are
nonempty.) -/
def registrations (segs : List (List Point)) : List ((ℤ × ℤ) × Conn) :=
  (List.range segs.length).flatMap (fun i =>
    [(getPointKey ((segs.getD i []).headD (0, 0)), ⟨i, true⟩),
     (getPointKey ((segs.getD i []).getLastD (0, 0)), ⟨i, false⟩)])

/-- The endpoint map after all registrations. -/
def buildEndpointMap (segs : List (List Point)) : EndpointMap :=
  (registrations segs).foldl (fun m kc => emapSet m kc.1 kc.2) (fun _ => none)

/-- Declarative reading of JS Map insertion order: the entry of the last
registration carrying a given key. -/
def lastRegistration (segs : List (List Point)) (k : ℤ × ℤ) : Option Conn :=
  ((registrations segs).reverse.find? (fun kc => kc.1 = k)).map Prod.snd

theorem foldl_emapSet_lookup :
    ∀ (l : List ((ℤ × ℤ) × Conn)) (m : EndpointMap) (k : ℤ × ℤ),
      (l.foldl (fun m kc => emapSet m kc.1 kc.2) m) k =
        match l.reverse.find? (fun kc => kc.1 = k) with
        | some kc => some kc.2
        | none => m k
  | [], m, k => rfl
  | a :: t, m, k => by
    have ih := foldl_emapSet_lookup t (emapSet m a.1 a.2) k
    simp only [List.foldl_cons] at ih ⊢
    rw [ih]
    rw [List.reverse_cons, List.find?_append]
    cases hf : t.reverse.find? (fun kc => kc.1 = k) with
    | some r => simp [Option.or]
    | none =>
      simp only [Option.or, List.find?]
      by_cases hk : a.1 = k
      · simp [hk, emapSet]
      · have : (decide (a.1 = k)) = false := by simpa using hk
        simp [this, emapSet, hk]
        intro h
        exact absurd h.symm hk

/-- C10: the endpoint index maps each quantized key to at most one entry
(it is `Option`-valued), and a lookup returns exactly the entry of the
last registration (in input order) whose endpoint quantizes to that key —
later registrations overwrite earlier ones, so only the segment registered
last is reachable from a shared endpoint key. -/
theorem buildEndpointMap_last_wins (segs : List (List Point)) (k : ℤ × ℤ) :
    buildEndpointMap segs k = lastRegistration segs k := by
  rw [buildEndpointMap, lastRegistration, foldl_emapSet_lookup]
  cases (registrations segs).reverse.find? (fun kc => kc.1 = k) <;> rfl

theorem registrations_index_lt (segs : List (List Point)) :
    ∀ kc ∈ registrations segs, kc.2.segmentIndex < segs.length := by
  intro kc hkc
  rw [registrations, List.mem_flatMap] at hkc
  obtain ⟨i, hi, hmem⟩ := hkc
  rw [List.mem_range] at hi
  simp only [List.mem_cons, List.not_mem_nil, or_false] at hmem
  rcases hmem with h | h <;> (rw [h]; exact hi)

theorem buildEndpointMap_lt (segs : List (List Point)) (k : ℤ × ℤ)
    (c : Conn) (h : buildEndpointMap segs k = some c) :
    c.segmentIndex < segs.length := by
  rw [buildEndpointMap, foldl_emapSet_lookup] at h
  cases hf : (registrations segs).reverse.find? (fun kc => kc.1 = k) with
  | none => rw [hf] at h; cases h
  | some kc =>
    rw [hf] at h
    have hmem : kc ∈ (registrations segs).reverse := List.mem_of_find?_eq_some hf
    rw [List.mem_reverse] at hmem
    have := registrations_index_lt segs kc hmem
    cases h
    exact this

/-- The `while (true)` chase loop of `joinPaths`, with explicit fuel (the
JS loop performs at most one consuming iteration per unvisited segment, so
`segs.length` fuel suffices to reproduce it; see the fuel note at
`joinPathsWithIndices`). State: the accumulated path, the visited set, and
the (ghost) list of consumed segment indices in consumption order. -/
def chase (emap : EndpointMap) (segs : List (List Point)) :
    ℕ → List Point → List ℕ → List ℕ → List Point × List ℕ × List ℕ
  | 0, path, vis, idxs => (path, vis, idxs)
  | fuel + 1, path, vis, idxs =>
    match path.getLast? with
    | none => (path, vis, idxs)
    | some pe =>
      match emap (getPointKey pe) with
      | none => (path, vis, idxs)
      | some c =>
        if c.segmentIndex ∈ vis then (path, vis, idxs)
        else
          chase emap segs fuel
            (if c.isStart then path ++ (segs.getD c.segmentIndex []).tail
             else path ++ (segs.getD c.segmentIndex []).dropLast.reverse)
            (c.segmentIndex :: vis) (idxs ++ [c.segmentIndex])

/-- One iteration of the outer forEach of `joinPaths`: skip a visited
segment; otherwise start a path from it and chase connections. -/
def joinStep (emap : EndpointMap) (segs : List (List Point))
    (st : List ℕ × List (List Point × List ℕ)) (i : ℕ) :
    List ℕ × List (List Point × List ℕ) :=
  if i ∈ st.1 then st
  else
    let r := chase emap segs segs.length (segs.getD i []) (i :: st.1) [i]
    (r.2.1, st.2 ++ [(r.1, r.2.2)])

/-- The joinPaths traversal instrumented with the ghost list of segment indices each
output path consumed. Each chase step consumes a fresh unvisited index, so
`segs.length` fuel is never exhausted before the loop's natural break;
the fueled loop therefore reproduces the JS `while (true)`. -/
def joinPathsWithIndices (segs : List (List Point)) :
    List (List Point × List ℕ) :=
  ((List.range segs.length).foldl
    (joinStep (buildEndpointMap segs) segs) ([], [])).2

/-- BicycleMap.tsx (second variant) `joinPaths`: merge connected segments
into long paths; the returned value is the paths only (the ghost indices
projected away). -/
def joinPaths (segs : List (List Point)) : List (List Point) :=
  (joinPathsWithIndices segs).map Prod.fst

theorem chase_spec (emap : EndpointMap) (segs : List (List Point)) (n : ℕ)
    (hemap : ∀ k c, emap k = some c → c.segmentIndex < n) :
    ∀ (fuel : ℕ) (path : List Point) (vis idxs : List ℕ),
      ∃ new : List ℕ,
        (chase emap segs fuel path vis idxs).2.2 = idxs ++ new ∧
        (∀ j, j ∈ (chase emap segs fuel path vis idxs).2.1 ↔
          j ∈ vis ∨ j ∈ new) ∧
        new.Nodup ∧
        (∀ j ∈ new, j ∉ vis ∧ j < n)
  | 0, path, vis, idxs =>
    ⟨[], by simp [chase], by simp [chase], List.nodup_nil, by simp⟩
  | fuel + 1, path, vis, idxs => by
    cases hl : path.getLast? with
    | none =>
      exact ⟨[], by simp [chase, hl], by simp [chase, hl],
        List.nodup_nil, by simp⟩
    | some pe =>
      cases hm : emap (getPointKey pe) with
      | none =>
        exact ⟨[], by simp [chase, hl, hm], by simp [chase, hl, hm],
          List.nodup_nil, by simp⟩
      | some c =>
        by_cases hv : c.segmentIndex ∈ vis
        · exact ⟨[], by simp [chase, hl, hm, hv], by simp [chase, hl, hm, hv],
            List.nodup_nil, by simp⟩
        · have hstep : chase emap segs (fuel + 1) path vis idxs =
            chase emap segs fuel
              (if c.isStart then path ++ (segs.getD c.segmentIndex []).tail
               else path ++ (segs.getD c.segmentIndex []).dropLast.reverse)
              (c.segmentIndex :: vis) (idxs ++ [c.segmentIndex]) := by
            simp [chase, hl, hm, hv]
          obtain ⟨new', h1, h2, h3, h4⟩ := chase_spec emap segs n hemap fuel
            (if c.isStart then path ++ (segs.getD c.segmentIndex []).tail
             else path ++ (segs.getD c.segmentIndex []).dropLast.reverse)
            (c.segmentIndex :: vis) (idxs ++ [c.segmentIndex])
          refine ⟨c.segmentIndex :: new', ?_, ?_, ?_, ?_⟩
          · rw [hstep, h1, List.append_assoc]
            rfl
          · intro j
            rw [hstep, h2 j, List.mem_cons, List.mem_cons]
            tauto
          · exact List.nodup_cons.mpr
              ⟨fun hmem => (h4 _ hmem).1 (List.mem_cons_self _ _), h3⟩
          · intro j hj
            rcases List.mem_cons.mp hj with h | h
            · subst h
              exact ⟨hv, hemap _ _ hm⟩
            · exact ⟨fun hjv => (h4 j h).1 (List.mem_cons_of_mem _ hjv),
                (h4 j h).2⟩

theorem joinFold_spec (emap : EndpointMap) (segs : List (List Point))
    (n : ℕ) (hemap : ∀ k c, emap k = some c → c.segmentIndex < n) :
    ∀ (ilist : List ℕ) (vis : List ℕ) (out : List (List Point × List ℕ)),
      (∀ i ∈ ilist, i < n) →
      ∃ extra : List (List Point × List ℕ),
        (ilist.foldl (joinStep emap segs) (vis, out)).2 = out ++ extra ∧
        (∀ j, j ∈ (ilist.foldl (joinStep emap segs) (vis, out)).1 ↔
          j ∈ vis ∨ j ∈ (extra.map Prod.snd).flatten) ∧
        ((extra.map Prod.snd).flatten).Nodup ∧
        (∀ j ∈ (extra.map Prod.snd).flatten, j ∉ vis ∧ j < n) ∧
        (∀ i ∈ ilist, i ∈ (ilist.foldl (joinStep emap segs) (vis, out)).1)
  | [], vis, out, _ =>
    ⟨[], by simp, by simp, List.nodup_nil, by simp, by simp⟩
  | i :: rest, vis, out, hlt => by
    rw [List.foldl_cons]
    by_cases hv : i ∈ vis
    · have hstep : joinStep emap segs (vis, out) i = (vis, out) := by
        simp [joinStep, hv]
      rw [hstep]
      obtain ⟨extra, e1, e2, e3, e4, e5⟩ := joinFold_spec emap segs n hemap
        rest vis out (fun a ha => hlt a (List.mem_cons_of_mem _ ha))
      refine ⟨extra, e1, e2, e3, e4, ?_⟩
      intro a ha
      rcases List.mem_cons.mp ha with h | h
      · subst h
        exact (e2 a).mpr (Or.inl hv)
      · exact e5 a h
    · obtain ⟨new, c1, c2, c3, c4⟩ := chase_spec emap segs n hemap
        segs.length (segs.getD i []) (i :: vis) [i]
      set r := chase emap segs segs.length (segs.getD i []) (i :: vis) [i]
        with hr
      have hstep : joinStep emap segs (vis, out) i =
          (r.2.1, out ++ [(r.1, r.2.2)]) := by
        simp only [joinStep, hv, if_neg, if_false]
      rw [hstep]
      have hr22 : r.2.2 = i :: new := c1
      obtain ⟨extra', e1, e2, e3, e4, e5⟩ := joinFold_spec emap segs n hemap
        rest r.2.1 (out ++ [(r.1, r.2.2)])
        (fun a ha => hlt a (List.mem_cons_of_mem _ ha))
      refine ⟨(r.1, r.2.2) :: extra', ?_, ?_, ?_, ?_, ?_⟩
      · rw [e1, List.append_assoc]
        rfl
      · intro j
        rw [e2 j, c2 j]
        simp only [List.map_cons, List.flatten_cons, List.mem_append,
          List.mem_cons, hr22]
        tauto
      · simp only [List.map_cons, List.flatten_cons]
        rw [List.nodup_append]
        refine ⟨?_, e3, ?_⟩
        · rw [hr22]
          exact List.nodup_cons.mpr
            ⟨fun hmem => (c4 _ hmem).1 (List.mem_cons_self _ _), c3⟩
        · intro a ha hfa
          have haR : a ∈ r.2.1 := by
            rw [c2 a]
            rw [hr22] at ha
            rcases List.mem_cons.mp ha with h | h
            · subst h; exact Or.inl (List.mem_cons_self _ _)
            · exact Or.inr h
          exact (e4 a hfa).1 haR
      · intro j hj
        simp only [List.map_cons, List.flatten_cons, List.mem_append] at hj
        rcases hj with h | h
        · rw [hr22] at h
          rcases List.mem_cons.mp h with h' | h'
          · subst h'
            exact ⟨hv, hlt j (List.mem_cons_self _ _)⟩
          · exact ⟨fun hjv => (c4 j h').1 (List.mem_cons_of_mem _ hjv),
              (c4 j h').2⟩
        · refine ⟨fun hjv => (e4 j h).1 ?_, (e4 j h).2⟩
          rw [c2 j]
          exact Or.inl (List.mem_cons_of_mem _ hjv)
      · intro a ha
        rcases List.mem_cons.mp ha with h | h
        · subst h
          exact (e2 a).mpr (Or.inl ((c2 a).mpr (Or.inl (List.mem_cons_self _ _))))
        · exact e5 a h

theorem chase_stop_visited (emap : EndpointMap) (segs : List (List Point))
    (fuel : ℕ) (path : List Point) (vis idxs : List ℕ) (pe : Point)
    (c : Conn) (hl : path.getLast? = some pe)
    (hm : emap (getPointKey pe) = some c) (hv : c.segmentIndex ∈ vis) :
    chase emap segs (fuel + 1) path vis idxs = (path, vis, idxs) := by
  simp [chase, hl, hm, hv]

theorem chase_stop_none (emap : EndpointMap) (segs : List (List Point))
    (fuel : ℕ) (path : List Point) (vis idxs : List ℕ) (pe : Point)
    (hl : path.getLast? = some pe)
    (hm : emap (getPointKey pe) = none) :
    chase emap segs (fuel + 1) path vis idxs = (path, vis, idxs) := by
  simp [chase, hl, hm]

theorem chase_consume (emap : EndpointMap) (segs : List (List Point))
    (fuel : ℕ) (path : List Point) (vis idxs : List ℕ) (pe : Point)
    (c : Conn) (hl : path.getLast? = some pe)
    (hm : emap (getPointKey pe) = some c) (hv : c.segmentIndex ∉ vis) :
    chase emap segs (fuel + 1) path vis idxs =
      chase emap segs fuel
        (if c.isStart then path ++ (segs.getD c.segmentIndex []).tail
         else path ++ (segs.getD c.segmentIndex []).dropLast.reverse)
        (c.segmentIndex :: vis) (idxs ++ [c.segmentIndex]) := by
  simp [chase, hl, hm, hv]

/-- C7: the output paths partition the input segments — instrumenting
`joinPaths` with the indices of the segments each output path consumed
(`joinPaths` is their first projection), every input segment index is
consumed by exactly one output path: it occurs exactly once across all the
consumed-index lists. -/
theorem joinPaths_partition (segs : List (List Point))
    (_hne : ∀ s ∈ segs, s ≠ []) (j : ℕ) (hj : j < segs.length) :
    joinPaths segs = (joinPathsWithIndices segs).map Prod.fst ∧
    (((joinPathsWithIndices segs).map Prod.snd).flatten).count j = 1 := by
  refine ⟨rfl, ?_⟩
  obtain ⟨extra, e1, e2, e3, e4, e5⟩ := joinFold_spec (buildEndpointMap segs)
    segs segs.length (buildEndpointMap_lt segs) (List.range segs.length)
    [] [] (fun i hi => List.mem_range.mp hi)
  have hout : joinPathsWithIndices segs = extra := by
    rw [joinPathsWithIndices, e1]
    rfl
  have hjmem := e5 j (List.mem_range.mpr hj)
  have hjoin : j ∈ (extra.map Prod.snd).flatten := by
    rcases (e2 j).mp hjmem with h | h
    · exact absurd h (List.not_mem_nil j)
    · exact h
  rw [hout]
  exact List.count_eq_one_of_mem e3 hjoin

/-- C7 witness: the partition property on a concrete two-segment input. -/
theorem joinPaths_partition_witness :
    joinPaths [[((0 : ℚ), (0 : ℚ)), (1, 0)], [(1, 0), (2, 0)]] =
      (joinPathsWithIndices
        [[((0 : ℚ), (0 : ℚ)), (1, 0)], [(1, 0), (2, 0)]]).map Prod.fst ∧
    (((joinPathsWithIndices
        [[((0 : ℚ), (0 : ℚ)), (1, 0)], [(1, 0), (2, 0)]]).map
      Prod.snd).flatten).count 0 = 1 :=
  joinPaths_partition [[((0 : ℚ), (0 : ℚ)), (1, 0)], [(1, 0), (2, 0)]]
    (by intro s hs; rcases List.mem_cons.mp hs with h | h
        · subst h; simp
        · simp only [List.mem_cons, List.not_mem_nil, or_false] at h
          subst h; simp)
    0 (by norm_num)

theorem pathLength_append (g : Geom) :
    ∀ (A : List Point) (b : Point) (B : List Point),
      A.getLast? = some b →
      pathLength g (A ++ B) = pathLength g A + pathLength g (b :: B)
  | [], b, B, h => by simp at h
  | [a], b, B, h => by
    obtain rfl : a = b := by simpa using h
    simp [pathLength]
  | a1 :: a2 :: as, b, B, h => by
    have h' : (a2 :: as).getLast? = some b := by simpa using h
    have ih := pathLength_append g (a2 :: as) b B h'
    show pathLength g ((a1 :: a2 :: as) ++ B) =
      pathLength g (a1 :: a2 :: as) + pathLength g (b :: B)
    have e1 : pathLength g ((a1 :: a2 :: as) ++ B) =
        g.dist a1 a2 + pathLength g ((a2 :: as) ++ B) := rfl
    have e2 : pathLength g (a1 :: a2 :: as) =
        g.dist a1 a2 + pathLength g (a2 :: as) := rfl
    rw [e1, ih, e2]
    ring

/-- C4 (amended): when the FIRST-listed segment's terminal point equals
the second's first point (and the second segment's two endpoint keys
differ), `joinPaths` produces the single merged path `A ++ B.tail`, whose
total length is the sum of the two segments' lengths. The claimed order
independence fails: see the counterexample for the swapped order. -/
theorem joinPaths_merge (g : Geom) (A : List Point) (b : Point)
    (B' : List Point) (hshare : A.getLast? = some b)
    (hkey : getPointKey ((b :: B').getLastD (0, 0)) ≠ getPointKey b) :
    joinPaths [A, b :: B'] = [A ++ B'] ∧
    pathLength g (A ++ B') =
      pathLength g A + pathLength g (b :: B') := by
  have hlen : pathLength g (A ++ B') =
      pathLength g A + pathLength g (b :: B') :=
    pathLength_append g A b B' hshare
  refine ⟨?_, hlen⟩
  have hAl : A.getLastD (0, 0) = b := by
    rw [List.getLastD_eq_getLast?, hshare]
    rfl
  have hreg : registrations [A, b :: B'] =
      [(getPointKey (A.headD (0, 0)), ⟨0, true⟩),
       (getPointKey (A.getLastD (0, 0)), ⟨0, false⟩),
       (getPointKey b, ⟨1, true⟩),
       (getPointKey ((b :: B').getLastD (0, 0)), ⟨1, false⟩)] := rfl
  have hlookS : buildEndpointMap [A, b :: B'] (getPointKey b) =
      some ⟨1, true⟩ := by
    simp only [buildEndpointMap, hreg, List.foldl_cons, List.foldl_nil,
      emapSet]
    rw [if_neg (fun h => hkey h.symm)]
    simp
  have hstop : ∀ (path' : List Point) (idxs : List ℕ),
      chase (buildEndpointMap [A, b :: B']) [A, b :: B'] 1 path' [1, 0]
        idxs = (path', [1, 0], idxs) := by
    intro path' idxs
    cases hl : path'.getLast? with
    | none =>
      show chase _ _ (0 + 1) _ _ _ = _
      simp [chase, hl]
    | some pe =>
      cases hm : buildEndpointMap [A, b :: B'] (getPointKey pe) with
      | none => exact chase_stop_none _ _ 0 _ _ _ pe hl hm
      | some c =>
        refine chase_stop_visited _ _ 0 _ _ _ pe c hl hm ?_
        have hc2 : c.segmentIndex < 2 :=
          buildEndpointMap_lt [A, b :: B'] _ c hm
        have : c.segmentIndex = 0 ∨ c.segmentIndex = 1 := by omega
        rcases this with h | h <;> simp [h]
  have hchase : chase (buildEndpointMap [A, b :: B']) [A, b :: B'] 2 A
      [0] [0] = (A ++ B', [1, 0], [0, 1]) := by
    have hstep := chase_consume (buildEndpointMap [A, b :: B'])
      [A, b :: B'] 1 A [0] [0] b ⟨1, true⟩ hshare hlookS (by simp)
    simp only at hstep
    rw [show (2 : ℕ) = 1 + 1 from rfl, hstep]
    exact hstop (A ++ B') [0, 1]
  have hstep0 : joinStep (buildEndpointMap [A, b :: B']) [A, b :: B']
      ([], []) 0 = ([1, 0], [(A ++ B', [0, 1])]) := by
    rw [joinStep, if_neg (List.not_mem_nil 0)]
    show ((chase _ _ 2 A [0] [0]).2.1,
      [] ++ [((chase _ _ 2 A [0] [0]).1, (chase _ _ 2 A [0] [0]).2.2)]) = _
    rw [hchase]
    rfl
  have hstep1 : joinStep (buildEndpointMap [A, b :: B']) [A, b :: B']
      ([1, 0], [(A ++ B', [0, 1])]) 1 = ([1, 0], [(A ++ B', [0, 1])]) := by
    rw [joinStep, if_pos (by simp)]
  show (joinPathsWithIndices [A, b :: B']).map Prod.fst = _
  rw [joinPathsWithIndices,
    show List.range (List.length [A, b :: B']) = [0, 1] from rfl,
    List.foldl_cons, hstep0, List.foldl_cons, hstep1, List.foldl_nil]
  rfl

/-- C4 witness: two touching 1-meter segments, the first one's terminal
equal to the second one's start, merge into one path of summed length. -/
theorem joinPaths_merge_witness :
    joinPaths [[((0 : ℚ), (0 : ℚ)), (1, 0)], [(1, 0), (2, 0)]] =
      [[((0 : ℚ), (0 : ℚ)), (1, 0)] ++ [((2 : ℚ), (0 : ℚ))]] ∧
    pathLength flatGeom ([((0 : ℚ), (0 : ℚ)), (1, 0)] ++ [((2 : ℚ), (0 : ℚ))]) =
      pathLength flatGeom [((0 : ℚ), (0 : ℚ)), (1, 0)] +
        pathLength flatGeom [((1 : ℚ), (0 : ℚ)), (2, 0)] :=
  joinPaths_merge flatGeom [(0, 0), (1, 0)] (1, 0) [(2, 0)] rfl
    (by norm_num [getPointKey, quant, Prod.ext_iff])

/-- C4 counterexample: the same two touching segments listed in the
opposite order — the shared endpoint is now the first-listed segment's
start — come back unmerged as two separate paths: `joinPaths` does not
return a single merged path and its result is order-dependent. -/
theorem joinPaths_order_dependent :
    joinPaths [[((1 : ℚ), (0 : ℚ)), (2, 0)], [(0, 0), (1, 0)]] =
      [[((1 : ℚ), (0 : ℚ)), (2, 0)], [((0 : ℚ), (0 : ℚ)), (1, 0)]] ∧
    (joinPaths [[((1 : ℚ), (0 : ℚ)), (2, 0)], [(0, 0), (1, 0)]]).length ≠
      1 := by
  have hk0 : getPointKey ((0 : ℚ), (0 : ℚ)) = (0, 0) := by
    norm_num [getPointKey, quant]
  have hk1 : getPointKey ((1 : ℚ), (0 : ℚ)) = (1000000, 0) := by
    norm_num [getPointKey, quant]
  have hk2 : getPointKey ((2 : ℚ), (0 : ℚ)) = (2000000, 0) := by
    norm_num [getPointKey, quant]
  have hb : buildEndpointMap [[((1 : ℚ), (0 : ℚ)), (2, 0)], [(0, 0), (1, 0)]] =
      fun k =>
        if k = (1000000, 0) then some ⟨1, false⟩
        else if k = (0, 0) then some ⟨1, true⟩
        else if k = (2000000, 0) then some ⟨0, false⟩
        else if k = (1000000, 0) then some ⟨0, true⟩
        else none := by
    funext k
    show (emapSet (emapSet (emapSet (emapSet (fun _ => none)
        (getPointKey ((1 : ℚ), (0 : ℚ))) ⟨0, true⟩)
        (getPointKey ((2 : ℚ), (0 : ℚ))) ⟨0, false⟩)
        (getPointKey ((0 : ℚ), (0 : ℚ))) ⟨1, true⟩)
        (getPointKey ((1 : ℚ), (0 : ℚ))) ⟨1, false⟩) k = _
    rw [hk0, hk1, hk2]
    rfl
  have h20 : buildEndpointMap [[((1 : ℚ), (0 : ℚ)), (2, 0)], [(0, 0), (1, 0)]]
      (2000000, 0) = some ⟨0, false⟩ := by
    rw [hb]
    norm_num
  have h10 : buildEndpointMap [[((1 : ℚ), (0 : ℚ)), (2, 0)], [(0, 0), (1, 0)]]
      (1000000, 0) = some ⟨1, false⟩ := by
    rw [hb]
    norm_num
  have hch0 : chase (buildEndpointMap [[((1 : ℚ), (0 : ℚ)), (2, 0)],
        [(0, 0), (1, 0)]]) [[((1 : ℚ), (0 : ℚ)), (2, 0)], [(0, 0), (1, 0)]]
      2 [((1 : ℚ), (0 : ℚ)), (2, 0)] [0] [0] =
      ([((1 : ℚ), (0 : ℚ)), (2, 0)], [0], [0]) :=
    chase_stop_visited _ _ 1 _ _ _ ((2 : ℚ), (0 : ℚ)) ⟨0, false⟩ rfl
      (by rw [hk2]; exact h20) (by simp)
  have hch1 : chase (buildEndpointMap [[((1 : ℚ), (0 : ℚ)), (2, 0)],
        [(0, 0), (1, 0)]]) [[((1 : ℚ), (0 : ℚ)), (2, 0)], [(0, 0), (1, 0)]]
      2 [((0 : ℚ), (0 : ℚ)), (1, 0)] [1, 0] [1] =
      ([((0 : ℚ), (0 : ℚ)), (1, 0)], [1, 0], [1]) :=
    chase_stop_visited _ _ 1 _ _ _ ((1 : ℚ), (0 : ℚ)) ⟨1, false⟩ rfl
      (by rw [hk1]; exact h10) (by simp)
  have hs0 : joinStep (buildEndpointMap [[((1 : ℚ), (0 : ℚ)), (2, 0)],
        [(0, 0), (1, 0)]]) [[((1 : ℚ), (0 : ℚ)), (2, 0)], [(0, 0), (1, 0)]]
      ([], []) 0 =
      ([0], [([((1 : ℚ), (0 : ℚ)), (2, 0)], [0])]) := by
    rw [joinStep, if_neg (List.not_mem_nil 0)]
    show ((chase _ _ 2 [((1 : ℚ), (0 : ℚ)), (2, 0)] [0] [0]).2.1,
      [] ++ [((chase _ _ 2 [((1 : ℚ), (0 : ℚ)), (2, 0)] [0] [0]).1,
        (chase _ _ 2 [((1 : ℚ), (0 : ℚ)), (2, 0)] [0] [0]).2.2)]) = _
    rw [hch0]
    rfl
  have hs1 : joinStep (buildEndpointMap [[((1 : ℚ), (0 : ℚ)), (2, 0)],
        [(0, 0), (1, 0)]]) [[((1 : ℚ), (0 : ℚ)), (2, 0)], [(0, 0), (1, 0)]]
      ([0], [([((1 : ℚ), (0 : ℚ)), (2, 0)], [0])]) 1 =
      ([1, 0], [([((1 : ℚ), (0 : ℚ)), (2, 0)], [0]),
        ([((0 : ℚ), (0 : ℚ)), (1, 0)], [1])]) := by
    rw [joinStep, if_neg (by simp)]
    show ((chase _ _ 2 [((0 : ℚ), (0 : ℚ)), (1, 0)] [1, 0] [1]).2.1,
      [([((1 : ℚ), (0 : ℚ)), (2, 0)], [0])] ++
        [((chase _ _ 2 [((0 : ℚ), (0 : ℚ)), (1, 0)] [1, 0] [1]).1,
          (chase _ _ 2 [((0 : ℚ), (0 : ℚ)), (1, 0)] [1, 0] [1]).2.2)]) = _
    rw [hch1]
    rfl
  have hmain : joinPaths [[((1 : ℚ), (0 : ℚ)), (2, 0)], [(0, 0), (1, 0)]] =
      [[((1 : ℚ), (0 : ℚ)), (2, 0)], [((0 : ℚ), (0 : ℚ)), (1, 0)]] := by
    rw [joinPaths, joinPathsWithIndices,
      show List.range (List.length [[((1 : ℚ), (0 : ℚ)), (2, 0)],
        [(0, 0), (1, 0)]]) = [0, 1] from rfl,
      List.foldl_cons, hs0, List.foldl_cons, hs1, List.foldl_nil]
    rfl
  refine ⟨hmain, ?_⟩
  rw [hmain]
  simp
